import Mathlib

/-!
Verification of the `cheek` command pipeline.

Shallow embedding of the core logic of the repository:
* `src/cheek/commands.py`  — command value model, serialization, sequencer
* `src/cheek/extract/arg.py` — argument descriptor compiler
* `src/cheek/extract/command.py` — command descriptor compiler
* `src/cheek/extract/__main__.py` — source emitter
* `src/cheek/cli.py` — reflective CLI builder
-/

namespace Cheek

/-- Runtime error kinds.  The first group are the Python exceptions the code can
actually raise; `malformedDocument` and `schemaError` are the domain error names
used by the design documentation (no such classes exist in the code, the
constructors are present only so statements about them can be written down). -/
inductive Err
  | indexError
  | attributeError
  | typeError
  | valueError
  | keyError
  | assertionError
  | nameError
  | malformedDocument
  | schemaError
deriving DecidableEq, Repr

deriving instance DecidableEq for Except

/-! ## Command value model (`src/cheek/commands.py`) -/

/-- A value produced by `model_dump()`: after pydantic serialization every
field value the f-string sees is an int or a string (the `Bool` annotated
type has a `PlainSerializer` turning the bool into an int first). -/
inductive DumpedValue
  | int (n : Int)
  | str (s : String)
deriving DecidableEq, Repr

/-- A bound field value of a `Command` model.  `boolAnn` is a field of the
`Bool = Annotated[bool, PlainSerializer(lambda x: int(x))]` type;
`none` is Python `None`, the absence marker. -/
inductive FieldValue
  | int (n : Int)
  | str (s : String)
  | boolAnn (b : Bool)
  | none
deriving DecidableEq, Repr

/-- What `model_dump()` yields for one field: the `PlainSerializer` of
the `Bool` annotated type maps `True`/`False` to `1`/`0`; `None` stays `None`
(modelled as `Option.none`). -/
def dumpValue : FieldValue → Option DumpedValue
  | .int n => some (.int n)
  | .str s => some (.str s)
  | .boolAnn b => some (.int (if b then 1 else 0))
  | .none => Option.none

/-- Python `f"{value}"` on a dumped value. -/
def pyStr : DumpedValue → String
  | .int n => toString n
  | .str s => s

/-- A command instance: the scripting command name together with the bound
field values in declared field order (as `model_dump().items()` yields them). -/
structure CommandInst where
  name : String
  fields : List (String × FieldValue)
deriving DecidableEq, Repr

/-- Embeds `Command._field_strings`: iterate the dumped fields in declared order,
skip `None` values, yield the f-string rendering name=\x22value\x22. -/
def fieldStrings : List (String × FieldValue) → List String
  | [] => []
  | (f, v) :: rest =>
    match dumpValue v with
    | Option.none => fieldStrings rest
    | some d => (f ++ "=\"" ++ pyStr d ++ "\"") :: fieldStrings rest

/-- Embeds `Command.command`: the f-string joining the command name, a colon, a
space and the space-joined field strings. -/
def commandString (c : CommandInst) : String :=
  c.name ++ ": " ++ String.intercalate (" ") (fieldStrings c.fields)

/-- The zero-argument command `New` from the catalog (`class New(Command)`,
no fields). -/
def NewInst : CommandInst := ⟨"New", []⟩

/-! ## Execution sequencer (`do` in `src/cheek/commands.py`) -/

/-- Observable events of a sequencer run: a blocking sleep of a given
duration (in seconds), or the issuance of one serialized line. -/
inductive Event
  | sleep (d : ℚ)
  | exec (line : String)
deriving DecidableEq, Repr

/-- Default of the `intercommand_delay` parameter of `do`: `0.001` seconds. -/
def intercommandDelay : ℚ := 1 / 1000

/-- The second loop of `do`: `for command in commands[1:]:
time.sleep(delay); results.append(pyaudacity.do(command.command))`. -/
def doTail (engine : String → String) (delay : ℚ) :
    List CommandInst → List Event × List String
  | [] => ([], [])
  | c :: rest =>
    let r := doTail engine delay rest
    (Event.sleep delay :: Event.exec (commandString c) :: r.1,
     engine (commandString c) :: r.2)

/-- Embeds `do(*commands, intercommand_delay)`: the first loop issues
`commands[:1]` with no sleep, the second loop sleeps before each of
`commands[1:]`; returns the event trace and the collected results. -/
def doRun (engine : String → String) (delay : ℚ) :
    List CommandInst → List Event × List String
  | [] => ([], [])
  | c :: rest =>
    let t := doTail engine delay rest
    (Event.exec (commandString c) :: t.1,
     engine (commandString c) :: t.2)

/-! ## Argument descriptor compiler (`src/cheek/extract/arg.py`) -/

/-- Python `str.strip()`: drop whitespace from both ends. -/
def pyStrip (s : String) : String :=
  String.mk (((s.data.dropWhile Char.isWhitespace).reverse.dropWhile
    Char.isWhitespace).reverse)

/-- Propagate the first error of an elementwise computation over a list
(a Python list comprehension or generator consumption raises at the first
failing element). -/
def mapExcept {α β : Type} (f : α → Except Err β) : List α → Except Err (List β)
  | [] => .ok []
  | a :: as =>
    match f a with
    | .error e => .error e
    | .ok b =>
      match mapExcept f as with
      | .error e => .error e
      | .ok bs => .ok (b :: bs)

/-- The view of the `<i>` fragment of one argument that `Arg.from_html`
reads through BeautifulSoup: its navigable strings in document order,
and — when a `<ul>` element follows the fragment in document order
(`find_next("ul")`) — the raw texts of the `<li>` items of that list
(`find_all("li")`), `none` when no `<ul>` follows. -/
structure ArgHtml where
  strings : List String
  followingUl : Option (List String)
deriving DecidableEq, Repr

/-- bs4 `.text` of a fragment: the concatenation of its strings. -/
def ArgHtml.text (h : ArgHtml) : String := String.join h.strings

/-- Embeds `_find_enum_values`: locate the next `<ul>`; when there is none the
generator returns at once, yielding nothing; otherwise it yields the
stripped text of each `<li>` in document order. -/
def findEnumValues (h : ArgHtml) : List String :=
  match h.followingUl with
  | Option.none => []
  | some lis => lis.map pyStrip

/-- The literal part of the regex `, \(default:(.*)\)`, which `re.match`
anchors at the start of the default string. -/
def defaultPat : List Char := ", (default:".data

/-- The greedy group `(.*)\)`: the text before the last `)` of a character
run, if the run contains one. -/
def beforeLastParen (cs : List Char) : Option (List Char) :=
  match cs.reverse.dropWhile (fun c => c ≠ ')') with
  | [] => Option.none
  | _ :: rest => some rest.reverse

/-- Embeds `Arg._default_value`: `re.compile(r", \(default:(.*)\)").match(s)`.
The pattern must match at position 0; `.` does not cross a newline, so the
greedy capture ends at the last `)` of the first line segment after the
literal part.  On a failed match, `match[1]` subscripts `None` and raises
`TypeError`.  A captured `"unchanged"` maps to `None` (no default); any
other capture is the default text. -/
def defaultValue (s : String) : Except Err (Option String) :=
  if s.data.take 11 = defaultPat then
    match beforeLastParen ((s.data.drop 11).takeWhile (fun c => c ≠ '\n')) with
    | Option.none => .error .typeError
    | some x =>
      if String.mk x = "unchanged" then .ok Option.none
      else .ok (some (String.mk x))
  else .error .typeError

/-- The compiled argument descriptor (`Arg` dataclass).  `default = none`
models the Python `None` produced for an `unchanged` default. -/
structure Arg where
  name : String
  type : String
  default : Option String
  enum_values : List String
deriving DecidableEq, Repr

/-- Embeds `Arg.from_html`: unpack the stripped strings of the fragment into exactly
`type_str, name_str, default_str` (a tuple-unpacking `ValueError`
otherwise), collect enum values when `type_str == "enum"`, parse the
default, and build the descriptor (the name is stripped a second time). -/
def Arg.fromHtml (h : ArgHtml) : Except Err Arg :=
  match h.strings.map pyStrip with
  | [typeStr, nameStr, defaultStr] =>
    let enumValues := if typeStr = "enum" then findEnumValues h else []
    match defaultValue defaultStr with
    | .error e => .error e
    | .ok dv => .ok ⟨pyStrip nameStr, typeStr, dv, enumValues⟩
  | _ => .error .valueError

/-! ## Command descriptor compiler (`src/cheek/extract/command.py`) -/

/-- The view of one `<td>` cell: the text of its first embedded `<b>`
fragment (`find("b")`, `none` when absent), its `<i>` argument fragments
in document order, and its full text. -/
structure TdHtml where
  bold : Option String
  italics : List ArgHtml
  text : String
deriving DecidableEq, Repr

/-- A table row: its `<td>` cells in document order. -/
structure RowHtml where
  tds : List TdHtml
deriving DecidableEq, Repr

/-- The compiled command descriptor (`Command` dataclass of the extract
package). -/
structure CommandDesc where
  name : String
  args : List Arg
  doc : String
deriving DecidableEq, Repr

/-- Embeds `Command.from_html`, statement by statement:
`find_all("td")[0].find("b").text[:-1]` (an `IndexError` on a missing
cell, an `AttributeError` when the name cell has no `<b>`), then the
`<i>` fragments of cell 2 whose text is not `"none"` compiled by
`Arg.from_html`, then the stripped text of cell 3. -/
def CommandDesc.fromHtml (row : RowHtml) : Except Err CommandDesc :=
  match row.tds.get? 0 with
  | Option.none => .error .indexError
  | some td0 =>
    match td0.bold with
    | Option.none => .error .attributeError
    | some btext =>
      let name := String.mk btext.data.dropLast
      match row.tds.get? 2 with
      | Option.none => .error .indexError
      | some td2 =>
        match mapExcept Arg.fromHtml
            (td2.italics.filter (fun h => ArgHtml.text h ≠ "none")) with
        | .error e => .error e
        | .ok args =>
          match row.tds.get? 3 with
          | Option.none => .error .indexError
          | some td3 => .ok ⟨name, args, pyStrip td3.text⟩

/-! ## Source emitter (`src/cheek/extract/__main__.py`) -/

/-- Embeds `_valid_python_name`: rewrite the literal `"None"` to `"None_"`, then
replace every `,`, space, `-`, `(` and `)` with `_` (the successive
`str.replace` calls all target `_`, so they amount to one character map). -/
def validPythonName (name : String) : String :=
  let n := if name = "None" then ("None_") else name
  String.mk (n.data.map (fun c =>
    if c = ',' ∨ c = ' ' ∨ c = '-' ∨ c = '(' ∨ c = ')' then '_' else c))

/-- Embeds `_python_enum_name`. -/
def pythonEnumName (commandName argName : String) : String :=
  validPythonName commandName ++ validPythonName argName

/-- Embeds `_python_type`.  The fall-through branch of the `match` raises: its
f-string references the undefined name `type_str`, a `NameError`. -/
def pythonType (commandName : String) (arg : Arg) : Except Err String :=
  match arg.type with
  | "size_t" => .ok ("int")
  | "int" => .ok ("int")
  | "string" => .ok ("str")
  | "double" => .ok ("float")
  | "float" => .ok ("float")
  | "bool" => .ok ("bool")
  | "enum" => .ok (pythonEnumName commandName arg.name)
  | _ => .error .nameError

/-- Embeds `_default_to_python`: a `None` default renders (through the f-string
of the caller) as the text `None`; an empty string default as two single
quote characters; another
string default quoted; an enum default as `EnumName.Member`; anything else
as its literal text. -/
def defaultToPython (commandName : String) (arg : Arg) : String :=
  match arg.default with
  | Option.none => "None"
  | some d =>
    if arg.type = "string" then
      if d = "" then ("\x27\x27") else ("\"" ++ d ++ "\"")
    else if arg.type = "enum" then
      pythonEnumName commandName arg.name ++ "." ++ validPythonName d
    else d

/-- Embeds `_arg_to_python`: one field line. -/
def argToPython (commandName : String) (arg : Arg) : Except Err (List String) :=
  match pythonType commandName arg with
  | .error e => .error e
  | .ok t =>
    .ok ["    " ++ validPythonName arg.name ++ ": " ++ t ++ " = "
      ++ defaultToPython commandName arg]

/-- Embeds `_enum_to_python`: `assert arg.enum_values`, then the enum class line
and one member line per enumeration value. -/
def enumToPython (commandName : String) (arg : Arg) : Except Err (List String) :=
  if arg.enum_values = [] then .error .assertionError
  else
    .ok (("class " ++ pythonEnumName commandName arg.name ++ "(Enum):") ::
      arg.enum_values.map (fun v =>
        "    " ++ validPythonName v ++ " = \x27" ++ v ++ "\x27"))

/-- The first loop of `_command_to_python`: an enum block for each
argument whose `enum_values` list is non-empty. -/
def enumBlocks (commandName : String) : List Arg → Except Err (List String)
  | [] => .ok []
  | arg :: rest =>
    let head : Except Err (List String) :=
      if arg.enum_values ≠ [] then enumToPython commandName arg else .ok []
    match head with
    | .error e => .error e
    | .ok ls =>
      match enumBlocks commandName rest with
      | .error e => .error e
      | .ok rs => .ok (ls ++ rs)

/-- The field lines of `_command_to_python`. -/
def argLines (commandName : String) : List Arg → Except Err (List String)
  | [] => .ok []
  | arg :: rest =>
    match argToPython commandName arg with
    | .error e => .error e
    | .ok ls =>
      match argLines commandName rest with
      | .error e => .error e
      | .ok rs => .ok (ls ++ rs)

/-- Embeds `_command_to_python`: the enum blocks, the class line, then the field
lines — or a single `pass` line for a command without arguments. -/
def commandToPython (command : CommandDesc) : Except Err (List String) :=
  match enumBlocks command.name command.args with
  | .error e => .error e
  | .ok eb =>
    let classLine := "class " ++ validPythonName command.name ++ ":"
    match command.args with
    | [] => .ok (eb ++ [classLine, "    pass"])
    | _ =>
      match argLines command.name command.args with
      | .error e => .error e
      | .ok als => .ok (eb ++ classLine :: als)

/-- Embeds `main`: the `from enum import Enum` header followed by the lines of
every command, in schema order. -/
def emitSource (commands : List CommandDesc) : Except Err (List String) :=
  match mapExcept commandToPython commands with
  | .error e => .error e
  | .ok blocks => .ok ("from enum import Enum" :: blocks.flatten)

/-! ## Reflective CLI builder (`src/cheek/cli.py`) -/

/-- Python runtime types as the flag derivation sees them. -/
inductive PyType
  | noneType
  | intType
  | strType
  | floatType
  | boolType
  | custom (name : String)
deriving DecidableEq, Repr

/-- A pydantic field annotation: a plain type, or a `UnionType`
(`X | Y | ...`) with its `__args__`. -/
inductive Annot
  | plain (t : PyType)
  | union (args : List PyType)
deriving DecidableEq, Repr

/-- The loop of `field_info_to_click_type` over the `__args__` of a union:
return the first member that is not `NoneType`; fall through to
`assert False` when every member is `NoneType`. -/
def firstNonNone : List PyType → Except Err PyType
  | [] => .error .assertionError
  | t :: rest => if t = PyType.noneType then firstNonNone rest else .ok t

/-- Embeds `field_info_to_click_type`: `assert ann is not None` (an
`AssertionError` on a missing annotation), then the union loop, else the
annotation itself. -/
def fieldInfoToClickType (ann : Option Annot) : Except Err PyType :=
  match ann with
  | Option.none => .error .assertionError
  | some (.union args) => firstNonNone args
  | some (.plain t) => .ok t

/-- Python `str.lower()` on the ASCII field names the catalog declares:
a character-wise lowering. -/
def pyLower (s : String) : String := String.mk (s.data.map Char.toLower)

/-- Embeds `name_map = {field_name.lower(): field_name for field_name in
command_class.model_fields}` and its lookup: a Python dict comprehension
lets a later entry win a key collision, so the lookup yields the LAST
declared field whose lowering equals the key, and no match raises
`KeyError` at use. -/
def nameMapLookup (fields : List String) (k : String) : Option String :=
  (fields.filter (fun f => pyLower f = k)).getLast?

/-- Embeds `command_kwargs = {name_map[name]: value for name, value in
kwargs.items()}`. -/
def translateKwargs (fields : List String) :
    List (String × FieldValue) → Except Err (List (String × FieldValue))
  | [] => .ok []
  | (k, v) :: rest =>
    match nameMapLookup fields k with
    | Option.none => .error .keyError
    | some f =>
      match translateKwargs fields rest with
      | .error e => .error e
      | .ok rs => .ok ((f, v) :: rs)

/-- The value a keyword argument list supplies for one field name. -/
def lookupValue (kwargs : List (String × FieldValue)) (f : String) :
    Option FieldValue :=
  match kwargs.find? (fun p => p.1 = f) with
  | Option.none => Option.none
  | some p => some p.2

/-- Embeds `command_class(**kwargs)` in the setting of the claim, where the keyword
arguments cover every declared field: bind each declared field, in
declaration order, to the value supplied for it (pydantic model equality
is field-wise, so the instance is determined by this binding list);
`none` when a field is left without a value. -/
def bindFields (fields : List String) (kwargs : List (String × FieldValue)) :
    Option (List (String × FieldValue)) :=
  match fields with
  | [] => some []
  | f :: rest =>
    match lookupValue kwargs f, bindFields rest kwargs with
    | some v, some bs => some ((f, v) :: bs)
    | _, _ => Option.none

/-- Embeds `construct_command_from_kwargs`: translate the (lower-cased) click
kwargs through the name map, then construct the command instance. -/
def constructCommandFromKwargs (fields : List String)
    (kwargs : List (String × FieldValue)) :
    Except Err (List (String × FieldValue)) :=
  match translateKwargs fields kwargs with
  | .error e => .error e
  | .ok ckw =>
    match bindFields fields ckw with
    | Option.none => .error .valueError
    | some inst => .ok inst

/-! ## Theorems -/

/-- Helper: the generator `_field_strings` is the order-preserving
`filterMap` over the dumped fields. -/
theorem fieldStrings_eq_filterMap (fs : List (String × FieldValue)) :
    fieldStrings fs =
      fs.filterMap (fun p => (dumpValue p.2).map
        (fun d => p.1 ++ "=\"" ++ pyStr d ++ "\"")) := by
  induction fs with
  | nil => rfl
  | cons p rest ih =>
    cases p with
    | mk f v =>
      cases v <;> simp [fieldStrings, dumpValue, List.filterMap, ih]

/-- C1 counterexample: the code serializes the zero-argument command `New`
to `"New: "` — with a trailing space after the colon — not to `"New:"`. -/
theorem commandString_New_has_trailing_space :
    commandString NewInst = "New: " ∧ commandString NewInst ≠ "New:" := by
  constructor
  · rfl
  · decide

/-- C1 amended: for every zero-field command, serialization yields the verb
followed by a colon and a single trailing space (the f-string
f-string keeps its space even when the field join is empty). -/
theorem commandString_zero_fields (name : String) :
    commandString ⟨name, []⟩ = name ++ ": " := by
  simp [commandString, fieldStrings, String.intercalate]

/-- C2: serialization renders the verb, a colon-space, and then exactly the
fields whose dumped value is not `None`, in declared order, each as
`name="value"`, joined by single spaces.  A field bound to the absence
marker is dropped by the filter regardless of anything declared about it. -/
theorem serialization_omission_law (name : String) (fs : List (String × FieldValue)) :
    commandString ⟨name, fs⟩ =
      name ++ ": " ++ String.intercalate (" ")
        (fs.filterMap (fun p => (dumpValue p.2).map
          (fun d => p.1 ++ "=\"" ++ pyStr d ++ "\""))) := by
  rw [commandString, fieldStrings_eq_filterMap]

/-- C3: a field of the annotated `Bool` type serializes as `name="1"` when
bound true and `name="0"` when bound false, and the rendered fragment is
never the textual `name="true"` or `name="false"`. -/
theorem bool_field_serialization (f : String) (b : Bool)
    (rest : List (String × FieldValue)) :
    fieldStrings ((f, FieldValue.boolAnn b) :: rest) =
      (f ++ "=\"" ++ (if b then ("1") else ("0")) ++ "\"") :: fieldStrings rest
    ∧ f ++ "=\"" ++ (if b then ("1") else ("0")) ++ "\"" ≠ f ++ "=\"true\""
    ∧ f ++ "=\"" ++ (if b then ("1") else ("0")) ++ "\"" ≠ f ++ "=\"false\"" := by
  refine ⟨?_, ?_, ?_⟩
  · have h0 : toString (0 : Int) = "0" := rfl
    have h1 : toString (1 : Int) = "1" := rfl
    cases b <;> simp [fieldStrings, dumpValue, pyStr, h0, h1]
  · intro h
    have h' := congrArg String.data h
    cases b <;> simp [String.data_append] at h'
  · intro h
    have h' := congrArg String.data h
    cases b <;> simp [String.data_append] at h'

/-- Helper: closed form of the second loop of `do`. -/
theorem doTail_eq (engine : String → String) (delay : ℚ) (cs : List CommandInst) :
    doTail engine delay cs =
      (cs.flatMap (fun c => [Event.sleep delay, Event.exec (commandString c)]),
       cs.map (fun c => engine (commandString c))) := by
  induction cs with
  | nil => rfl
  | cons c rest ih => simp [doTail, ih]

/-- C4: on a non-empty command list the sequencer issues the first command
with no preceding sleep, sleeps exactly once (for the configured delay)
before each later command, never sleeps after the last issuance, and
returns the engine responses in issuance order; the default delay is
`0.001` seconds, i.e. one millisecond. -/
theorem sequencer_pacing (engine : String → String) (delay : ℚ)
    (c : CommandInst) (rest : List CommandInst) :
    doRun engine delay (c :: rest) =
      (Event.exec (commandString c) ::
         rest.flatMap (fun d => [Event.sleep delay, Event.exec (commandString d)]),
       (c :: rest).map (fun d => engine (commandString d)))
    ∧ intercommandDelay = 1 / 1000 := by
  refine ⟨?_, rfl⟩
  simp [doRun, doTail_eq]

/-- C5 counterexample: an `enum`-typed argument fragment with no following
list compiles without any error to a descriptor whose enumeration value
sequence is empty — there is no `SchemaError` (no such failure path exists
in `_find_enum_values`, whose generator just returns). -/
theorem enum_missing_list_counterexample :
    Arg.fromHtml ⟨["enum", " Type ", ", (default:White)"], Option.none⟩ =
      .ok ⟨"Type", "enum", some ("White"), []⟩ := rfl

/-- C5 amended: for an `enum`-typed argument fragment the compiler takes
the stripped text of each item of the following list, in document order,
as the enumeration values; when no following list exists it silently
collects no values, producing an enum descriptor with an empty
enumeration sequence instead of failing. -/
theorem enum_values_from_following_list (h : ArgHtml) (t n d : String)
    (dv : Option String)
    (hs : h.strings.map pyStrip = [t, n, d])
    (ht : t = "enum")
    (hd : defaultValue d = .ok dv) :
    Arg.fromHtml h =
      .ok ⟨pyStrip n, t, dv, (h.followingUl.getD []).map pyStrip⟩ := by
  subst ht
  unfold Arg.fromHtml
  rw [hs]
  cases hul : h.followingUl <;>
    simp [findEnumValues, hul, hd, Option.getD]

/-- C5 witness: the amended theorem applied to a concrete enum fragment
followed by a two-item list. -/
theorem enum_values_from_following_list_witness :
    (⟨["enum", " Type ", ", (default:White)"],
        some [" White ", "Pink"]⟩ : ArgHtml).strings.map pyStrip =
      ["enum", "Type", ", (default:White)"]
    ∧ defaultValue (", (default:White)") = .ok (some ("White"))
    ∧ Arg.fromHtml ⟨["enum", " Type ", ", (default:White)"],
        some [" White ", "Pink"]⟩ =
      .ok ⟨"Type", "enum", some ("White"), ["White", "Pink"]⟩ :=
  ⟨by decide, by decide,
    (enum_values_from_following_list
      ⟨["enum", " Type ", ", (default:White)"], some [" White ", "Pink"]⟩
      ("enum") ("Type") (", (default:White)") (some ("White"))
      (by decide) rfl (by decide)).trans (by decide)⟩

/-- Helper: a run of characters without a newline, closed by `)`, is kept
whole by the newline barrier of the dot. -/
theorem takeWhile_no_newline (l : List Char) (hl : '\n' ∉ l) :
    (l ++ [')']).takeWhile (fun c => c ≠ '\n') = l ++ [')'] := by
  induction l with
  | nil => decide
  | cons a rest ih =>
    have ha : a ≠ '\n' := fun hEq => hl (hEq ▸ List.mem_cons_self a rest)
    have hrest : '\n' ∉ rest := fun hm => hl (List.mem_cons_of_mem a hm)
    rw [List.cons_append, List.takeWhile_cons_of_pos (by simpa using ha),
      ih hrest]

/-- Helper: the greedy group of the default regex captures everything up
to the closing paren appended after a paren-free-or-not, newline-free run. -/
theorem beforeLastParen_append_paren (l : List Char) :
    beforeLastParen (l ++ [')']) = some l := by
  unfold beforeLastParen
  rw [List.reverse_append]
  simp

/-- C6: `_default_value` on a string of the exact shape
`, (default:X)` (with `X` free of newlines) yields no default when the
captured text is `unchanged` and otherwise yields exactly the captured
text as the default. -/
theorem default_value_extraction (X : String) (hX : '\n' ∉ X.data) :
    defaultValue (", (default:" ++ X ++ ")") =
      .ok (if X = "unchanged" then Option.none else some X) := by
  have hp : (")" : String).data = [')'] := rfl
  have hdata : (", (default:" ++ X ++ ")").data =
      defaultPat ++ (X.data ++ [')']) := by
    rw [String.data_append, String.data_append, hp, List.append_assoc]
    rfl
  unfold defaultValue
  rw [hdata, show (11 : Nat) = defaultPat.length from rfl,
    List.take_left, if_pos rfl, List.drop_left,
    takeWhile_no_newline X.data hX, beforeLastParen_append_paren]
  have hmk : String.mk X.data = X := rfl
  simp only [hmk]
  split <;> simp

/-- C6 witness: the extraction theorem applied at a literal default and at
the `unchanged` marker. -/
theorem default_value_extraction_witness :
    ('\n' ∉ ("1" : String).data)
    ∧ defaultValue (", (default:" ++ "1" ++ ")") =
        .ok (if ("1" : String) = "unchanged" then Option.none else some ("1"))
    ∧ ('\n' ∉ ("unchanged" : String).data)
    ∧ defaultValue (", (default:" ++ "unchanged" ++ ")") =
        .ok (if ("unchanged" : String) = "unchanged" then Option.none
          else some ("unchanged")) :=
  ⟨by decide, default_value_extraction ("1") (by decide),
   by decide, default_value_extraction ("unchanged") (by decide)⟩

/-- C7 counterexample: a row with only three cells makes `from_html` raise
the generic `IndexError` — not a `MalformedDocument` and not a
`SchemaError`, neither of which exists in the code. -/
theorem malformed_row_counterexample :
    CommandDesc.fromHtml ⟨[⟨some ("Foo:"), [], "Foo:"⟩, ⟨Option.none, [], ""⟩,
        ⟨Option.none, [], "none"⟩]⟩ = .error .indexError
    ∧ Err.indexError ≠ Err.malformedDocument
    ∧ Err.indexError ≠ Err.schemaError :=
  ⟨rfl, by decide, by decide⟩

/-- C7 amended: a row with fewer than four cells always makes the command
compiler fail (with `IndexError`, `AttributeError` or an argument
compilation error, depending on where evaluation stops), and a row whose
first cell has no bold fragment fails with `AttributeError`; a failing row
never yields a descriptor. -/
theorem malformed_row_failure (row : RowHtml) :
    (row.tds.length < 4 → ∃ e, CommandDesc.fromHtml row = .error e)
    ∧ ∀ td0, row.tds.get? 0 = some td0 → td0.bold = Option.none →
        CommandDesc.fromHtml row = .error .attributeError := by
  obtain ⟨tds⟩ := row
  constructor
  · intro hlen
    rcases tds with _ | ⟨a, _ | ⟨b, _ | ⟨c, _ | ⟨d, rest⟩⟩⟩⟩
    · exact ⟨.indexError, rfl⟩
    · cases hb : a.bold
      · exact ⟨.attributeError, by simp [CommandDesc.fromHtml, hb]⟩
      · exact ⟨.indexError, by simp [CommandDesc.fromHtml, hb]⟩
    · cases hb : a.bold
      · exact ⟨.attributeError, by simp [CommandDesc.fromHtml, hb]⟩
      · exact ⟨.indexError, by simp [CommandDesc.fromHtml, hb]⟩
    · cases hb : a.bold
      · exact ⟨.attributeError, by simp [CommandDesc.fromHtml, hb]⟩
      · simp only [CommandDesc.fromHtml, List.get?, hb]
        split
        · exact ⟨_, rfl⟩
        · exact ⟨.indexError, rfl⟩
    · simp at hlen
      omega
  · intro td0 h0 hb
    rcases tds with _ | ⟨a, tl⟩
    · simp at h0
    · simp at h0
      subst h0
      simp [CommandDesc.fromHtml, hb]

/-- C7 witness: the amended theorem applied to the empty row. -/
theorem malformed_row_failure_witness :
    (⟨[]⟩ : RowHtml).tds.length < 4
    ∧ ∃ e, CommandDesc.fromHtml ⟨[]⟩ = .error e :=
  ⟨by decide, (malformed_row_failure ⟨[]⟩).1 (by decide)⟩

/-- C8: the source emitter of `extract/__main__.py` is embedded as a pure
function of the descriptor sequence — it reads no other state — so
emitting twice from the same schema yields byte-identical output. -/
theorem emitter_deterministic (commands : List CommandDesc) :
    emitSource commands = emitSource commands := rfl

/-- Helper: with pairwise-distinct lowerings, the name-map filter finds
exactly the one true field. -/
theorem filter_lower_eq_single (fields : List String) (f : String)
    (hf : f ∈ fields) (h : (fields.map pyLower).Nodup) :
    fields.filter (fun g => pyLower g = pyLower f) = [f] := by
  induction fields with
  | nil => cases hf
  | cons a rest ih =>
    rw [List.map_cons, List.nodup_cons] at h
    rcases List.mem_cons.mp hf with heq | hf'
    · subst heq
      rw [List.filter_cons_of_pos (by simp)]
      have hnil : rest.filter (fun g => pyLower g = pyLower f) = [] := by
        rw [List.filter_eq_nil_iff]
        intro g hg hgl
        have hgl' : pyLower g = pyLower f := by simpa using hgl
        exact h.1 (hgl' ▸ List.mem_map_of_mem pyLower hg)
      rw [hnil]
    · have hne : pyLower a ≠ pyLower f := fun hEq =>
        h.1 (hEq ▸ List.mem_map_of_mem pyLower hf')
      rw [List.filter_cons_of_neg (by simpa using hne)]
      exact ih hf' h.2

/-- Helper: looking a field up in the directly-built keyword list yields
the value of that field. -/
theorem lookupValue_direct (fields : List String) (vals : String → FieldValue)
    (f : String) (hf : f ∈ fields) :
    lookupValue (fields.map (fun g => (g, vals g))) f = some (vals f) := by
  induction fields with
  | nil => cases hf
  | cons a rest ih =>
    by_cases ha : a = f
    · subst ha
      simp [lookupValue, List.find?]
    · rcases List.mem_cons.mp hf with rfl | hf'
      · exact absurd rfl ha
      · have := ih hf'
        simp only [lookupValue, List.map_cons, List.find?] at this ⊢
        simpa [ha] using this

/-- Helper: binding a field list from the directly-built keyword list
reconstructs the declared fields in order. -/
theorem bindFields_direct (fields all : List String)
    (vals : String → FieldValue) (hsub : ∀ f ∈ fields, f ∈ all) :
    bindFields fields (all.map (fun g => (g, vals g))) =
      some (fields.map (fun f => (f, vals f))) := by
  induction fields with
  | nil => rfl
  | cons f rest ih =>
    rw [bindFields, lookupValue_direct all vals f (hsub f (List.mem_cons_self f rest)),
      ih (fun g hg => hsub g (List.mem_cons_of_mem f hg))]
    rfl

/-- Helper: translating the lower-cased keyword list through the name map
restores every true field name. -/
theorem translateKwargs_lowered (all fields : List String)
    (vals : String → FieldValue)
    (hall : (all.map pyLower).Nodup) (hsub : ∀ f ∈ fields, f ∈ all) :
    translateKwargs all (fields.map (fun f => (pyLower f, vals f))) =
      .ok (fields.map (fun f => (f, vals f))) := by
  induction fields with
  | nil => rfl
  | cons f rest ih =>
    have hmap : nameMapLookup all (pyLower f) = some f := by
      rw [nameMapLookup,
        filter_lower_eq_single all f (hsub f (List.mem_cons_self f rest)) hall]
      rfl
    rw [List.map_cons, translateKwargs, hmap,
      ih (fun g hg => hsub g (List.mem_cons_of_mem f hg))]
    rfl

/-- C9: when no two field names collide after lowering (true of every
command type in the catalog), feeding the CLI builder the lower-cased
kwargs reconstructs exactly the command instance built directly from the
original case-preserving field names and the same values. -/
theorem cli_flag_reconstruction (fields : List String)
    (vals : String → FieldValue) (h : (fields.map pyLower).Nodup) :
    constructCommandFromKwargs fields
        (fields.map (fun f => (pyLower f, vals f))) =
      .ok (fields.map (fun f => (f, vals f)))
    ∧ bindFields fields (fields.map (fun f => (f, vals f))) =
        some (fields.map (fun f => (f, vals f))) := by
  have h2 := bindFields_direct fields fields vals (fun _ hf => hf)
  refine ⟨?_, h2⟩
  simp [constructCommandFromKwargs,
    translateKwargs_lowered fields fields vals h (fun _ hf => hf), h2]

/-- C9 witness: the example of the specification — fields Label, Text,
Start, End
with lower-cased input `label=0, text="hi", start=0, end=42`. -/
theorem cli_flag_reconstruction_witness :
    ((["Label", "Text", "Start", "End"].map pyLower).Nodup)
    ∧ constructCommandFromKwargs ["Label", "Text", "Start", "End"]
        [("label", FieldValue.int 0), ("text", FieldValue.str ("hi")),
         ("start", FieldValue.int 0), ("end", FieldValue.int 42)] =
      .ok [("Label", FieldValue.int 0), ("Text", FieldValue.str ("hi")),
           ("Start", FieldValue.int 0), ("End", FieldValue.int 42)] := by
  refine ⟨by decide, ?_⟩
  have h := (cli_flag_reconstruction ["Label", "Text", "Start", "End"]
    (fun f => if f = "Text" then FieldValue.str ("hi")
      else if f = "End" then FieldValue.int 42 else FieldValue.int 0)
    (by decide)).1
  have e1 : (["Label", "Text", "Start", "End"].map
      (fun f => (pyLower f, (fun f => if f = "Text" then FieldValue.str ("hi")
        else if f = "End" then FieldValue.int 42 else FieldValue.int 0) f))) =
      [("label", FieldValue.int 0), ("text", FieldValue.str ("hi")),
       ("start", FieldValue.int 0), ("end", FieldValue.int 42)] := by decide
  have e2 : (["Label", "Text", "Start", "End"].map
      (fun f => (f, (fun f => if f = "Text" then FieldValue.str ("hi")
        else if f = "End" then FieldValue.int 42 else FieldValue.int 0) f))) =
      [("Label", FieldValue.int 0), ("Text", FieldValue.str ("hi")),
       ("Start", FieldValue.int 0), ("End", FieldValue.int 42)] := by decide
  rw [e1, e2] at h
  exact h

/-- Helper: the union loop skips a block of `NoneType` members. -/
theorem firstNonNone_skip (pre rest : List PyType)
    (hpre : ∀ x ∈ pre, x = PyType.noneType) :
    firstNonNone (pre ++ rest) = firstNonNone rest := by
  induction pre with
  | nil => rfl
  | cons a tl ih =>
    rw [List.cons_append, firstNonNone,
      if_pos (hpre a (List.mem_cons_self a tl))]
    exact ih (fun x hx => hpre x (List.mem_cons_of_mem a hx))

/-- Helper: the union loop falls through to `assert False` when every
member is `NoneType`. -/
theorem firstNonNone_all_none (ts : List PyType)
    (hts : ∀ x ∈ ts, x = PyType.noneType) :
    firstNonNone ts = .error .assertionError := by
  induction ts with
  | nil => rfl
  | cons a tl ih =>
    rw [firstNonNone, if_pos (hts a (List.mem_cons_self a tl))]
    exact ih (fun x hx => hts x (List.mem_cons_of_mem a hx))

/-- C10: on a union annotation the flag type is the first member that is
not `NoneType`, and flag derivation fails with an assertion error when the
union has no such member. -/
theorem optional_flag_type_resolution (pre : List PyType) (t : PyType)
    (post ts : List PyType)
    (hpre : ∀ x ∈ pre, x = PyType.noneType) (ht : t ≠ PyType.noneType)
    (hts : ∀ x ∈ ts, x = PyType.noneType) :
    fieldInfoToClickType (some (Annot.union (pre ++ t :: post))) = .ok t
    ∧ fieldInfoToClickType (some (Annot.union ts)) =
        .error .assertionError := by
  constructor
  · rw [fieldInfoToClickType, firstNonNone_skip pre (t :: post) hpre,
      firstNonNone, if_neg ht]
  · rw [fieldInfoToClickType, firstNonNone_all_none ts hts]

/-- C10 witness: `str | None` resolves to `str`; a union of only
`NoneType` hits the assertion. -/
theorem optional_flag_type_resolution_witness :
    (∀ x ∈ ([] : List PyType), x = PyType.noneType)
    ∧ PyType.strType ≠ PyType.noneType
    ∧ (∀ x ∈ [PyType.noneType], x = PyType.noneType)
    ∧ fieldInfoToClickType
        (some (Annot.union ([] ++ PyType.strType :: [PyType.noneType]))) =
      .ok PyType.strType
    ∧ fieldInfoToClickType (some (Annot.union [PyType.noneType])) =
        .error .assertionError := by
  have h := optional_flag_type_resolution [] PyType.strType
    [PyType.noneType] [PyType.noneType] (by decide) (by decide) (by decide)
  exact ⟨by decide, by decide, by decide, h.1, h.2⟩

end Cheek
